import Mathlib

/-!
Verification of `cl/search/management/commands/cl_update_index.py`.

The development shallowly embeds the command module: the chunking engine
`Command._chunk_queryset_into_tasks` becomes a pure function from the item
sequence and the loop state to a trace of events (subtask creation, blocking
joins of task groups, progress writes), and `Command.handle` together with the
mode helpers becomes a pure function from the parsed options, an environment
(database rows, index counts, configured index URLs) and the interactive
answers to a list of side effects plus an outcome (normal completion,
`sys.exit` code, or an uncaught Python exception).
-/

namespace ClUpdateIndex

/-- Events produced by `Command._chunk_queryset_into_tasks`:
`submit b` models `subtasks.append(add_or_update_items.subtask((item_bundle, solr_url)))`
for a sealed bundle `b`; `join ws` models `TaskSet(tasks=subtasks).apply_async().join()`
for the accumulated wave `ws`; `progress p c pct` models the
`sys.stdout.write("\rProcessed p/c (pct%)")` line. -/
inductive Ev (α : Type) where
  | submit : List α → Ev α
  | join : List (List α) → Ev α
  | progress : Nat → Nat → Nat → Ev α
deriving DecidableEq, Repr

/-- The whole-number percentage printed by the Python format `(:.0%)`:
the nearest integer to `100 * p / n`, ties going to the even integer
(round-half-even, which is what Python uses when formatting). -/
def formatPercent (p n : Nat) : Nat :=
  let q := (100 * p) / n
  let r := (100 * p) % n
  if n < 2 * r then q + 1
  else if 2 * r < n then q
  else if q % 2 = 0 then q else q + 1

/-- The body of the `for item in items:` loop of
`Command._chunk_queryset_into_tasks`, with the loop state
(`processed_count`, `subtasks`, `item_bundle`) passed explicitly.
Branches mirror the source: the bundle is sealed when
`len(item_bundle) >= bundle_size or last_item`; the wave is joined when
`len(subtasks) >= chunksize or last_item`; one progress line is written
per item, after the seal and join checks. -/
def chunkLoop (count B C : Nat) : List α → Nat → List (List α) → List α → List (Ev α)
  | [], _, _, _ => []
  | item :: rest, processed, subtasks, bundle =>
    let lastItem := count = processed + 1
    let bundle1 := bundle ++ [item]
    if B ≤ bundle1.length ∨ lastItem then
      let subtasks1 := subtasks ++ [bundle1]
      if C ≤ subtasks1.length ∨ lastItem then
        Ev.submit bundle1 :: Ev.join subtasks1 ::
          Ev.progress (processed + 1) count (formatPercent (processed + 1) count) ::
          chunkLoop count B C rest (processed + 1) [] []
      else
        Ev.submit bundle1 ::
          Ev.progress (processed + 1) count (formatPercent (processed + 1) count) ::
          chunkLoop count B C rest (processed + 1) subtasks1 []
    else
      if C ≤ subtasks.length ∨ lastItem then
        Ev.join subtasks ::
          Ev.progress (processed + 1) count (formatPercent (processed + 1) count) ::
          chunkLoop count B C rest (processed + 1) [] bundle1
      else
        Ev.progress (processed + 1) count (formatPercent (processed + 1) count) ::
          chunkLoop count B C rest (processed + 1) subtasks bundle1

/-- Model of `Command._chunk_queryset_into_tasks(items, count, chunksize, bundle_size)`:
runs the loop from the initial state `processed_count = 0`, `subtasks = []`,
`item_bundle = []` and returns the event trace. -/
def chunk_queryset_into_tasks (items : List α) (count chunksize bundle_size : Nat) :
    List (Ev α) :=
  chunkLoop count bundle_size chunksize items 0 [] []

/-- The bundle carried by a submit event, if any. -/
def submitOf : Ev α → Option (List α)
  | .submit b => some b
  | _ => none

/-- The wave carried by a join event, if any. -/
def joinOf : Ev α → Option (List (List α))
  | .join w => some w
  | _ => none

/-- The data of a progress event, if any. -/
def progressOfEv : Ev α → Option (Nat × Nat × Nat)
  | .progress p c pct => some (p, c, pct)
  | _ => none

/-- The sealed bundles of a trace, in submission order. -/
def submitsOf (t : List (Ev α)) : List (List α) := t.filterMap submitOf

/-- The joined waves of a trace, in join order. -/
def joinsOf (t : List (Ev α)) : List (List (List α)) := t.filterMap joinOf

/-- The progress writes of a trace, in order. -/
def progressOf (t : List (Ev α)) : List (Nat × Nat × Nat) := t.filterMap progressOfEv

/-- Whether an event is a progress write. -/
def isProgress : Ev α → Bool
  | .progress _ _ _ => true
  | _ => false

/-- The trace restricted to dispatch events (submits and joins). -/
def dispatchEvents (t : List (Ev α)) : List (Ev α) := t.filter fun e => !isProgress e

/-- Partition of a list into consecutive chunks of size `B` (the last chunk
possibly shorter); the reference shape of the bundling and of the waves. -/
def sliceList (B : Nat) : List α → List (List α)
  | [] => []
  | x :: xs => (x :: xs.take (B - 1)) :: sliceList B (xs.drop (B - 1))
termination_by l => l.length
decreasing_by simp [List.length_drop]; omega

/-- The reference dispatch trace: for each wave, a submit per bundle followed
by one blocking join of exactly those bundles. -/
def waveShape : List (List (List α)) → List (Ev α)
  | [] => []
  | w :: ws => w.map Ev.submit ++ Ev.join w :: waveShape ws

/-- Generalized reference dispatch trace from a mid-run state: `p` is the list
of bundles already turned into pending subtasks (they get no further submit
event, but belong to the next join), and `bs` the bundles still to be sealed. -/
def pendShape (C : Nat) (p : List (List α)) (bs : List (List α)) : List (Ev α) :=
  match bs with
  | [] => []
  | _ :: _ =>
    (bs.take (C - p.length)).map Ev.submit ++
      Ev.join (p ++ bs.take (C - p.length)) ::
      waveShape (sliceList C (bs.drop (C - p.length)))

/-- Checks the single-wave-in-flight discipline over a trace: every join must
carry exactly the bundles submitted since the previous join (so no task of a
later wave is ever submitted before the current wave's join), and at the end
no submitted task may remain unjoined. -/
def oneWaveInFlight [DecidableEq α] : List (Ev α) → List (List α) → Bool
  | [], pending => pending.isEmpty
  | Ev.submit b :: t, pending => oneWaveInFlight t (pending ++ [b])
  | Ev.join w :: t, pending => decide (w = pending) && oneWaveInFlight t []
  | Ev.progress _ _ _ :: t, pending => oneWaveInFlight t pending

/-- The reference progress sequence: starting after `processed` items out of
`count`, the data of the next `n` progress lines. -/
def progressSeq (processed count : Nat) : Nat → List (Nat × Nat × Nat)
  | 0 => []
  | n + 1 =>
    (processed + 1, count, formatPercent (processed + 1) count) ::
      progressSeq (processed + 1) count n

/-- Rendering of one progress event as the string written by
`sys.stdout.write("\rProcessed {}/{} ({:.0%})".format(...))`. -/
def progressLine (d : Nat × Nat × Nat) : String :=
  "\rProcessed " ++ toString d.1 ++ "/" ++ toString d.2.1 ++
    " (" ++ toString d.2.2 ++ "%)"

/-- All progress lines of a trace, as written to standard output. -/
def progressLines (t : List (Ev α)) : List String :=
  (progressOf t).map progressLine

/-- The bundles emitted by a run of `_chunk_queryset_into_tasks`, in order:
one per `add_or_update_items` subtask created. -/
def emittedBundles (xs : List α) (B C : Nat) : List (List α) :=
  submitsOf (chunk_queryset_into_tasks xs xs.length C B)

/-- The waves joined by a run of `_chunk_queryset_into_tasks`, in order:
one per `TaskSet(...).apply_async().join()` call. -/
def joinedWaves (xs : List α) (B C : Nat) : List (List (List α)) :=
  joinsOf (chunk_queryset_into_tasks xs xs.length C B)


/-- The record types accepted by `--type` (`valid_obj_type`). -/
inductive RT where
  | audio | opinions | people | recap
deriving DecidableEq, Repr

/-- A database row as this command sees it: a primary key, the
`date_created` timestamp (as an integer timestamp), and for people the
`is_judge` flag used by `add_or_update_all`. -/
structure Rec where
  pk : Int
  date_created : Int
  is_judge : Bool
deriving DecidableEq, Repr

/-- The parsed CLI options of the command (`options` dict in `handle`).
An absent `--type`, `--query`, `--items` or `--datetime` is `none`; a query
that is supplied is modelled as `some` of its opaque text. -/
structure Options where
  typ : Option RT
  noinput : Bool
  update : Bool
  delete : Bool
  optimize : Bool
  optimize_everything : Bool
  do_commit : Bool
  everything : Bool
  query : Option String
  items : Option (List Int)
  datetime : Option Int
deriving DecidableEq, Repr

/-- All flags off — the argparse defaults. -/
def defaultOptions : Options :=
  { typ := none, noinput := false, update := false, delete := false,
    optimize := false, optimize_everything := false, do_commit := false,
    everything := false, query := none, items := none, datetime := none }

/-- The external state the command reads: the database rows of the selected
type, the index document count returned by `si.query('*')....count()`, the
count for a `--query` deletion, the configured Solr URL, and the
`settings.SOLR_URLS` mapping together with whether each schema loads. -/
structure Env where
  db : List Rec
  indexCount : Nat
  queryCount : Nat
  solr_url : String
  solrUrls : List (String × Bool)
deriving DecidableEq, Repr

/-- The observable side effects of a run. `taskDeleteItems` carries the bare
id that `delete_items.delay` receives (see `Command.delete`); `chunk` carries
the event trace of a `_chunk_queryset_into_tasks` run. -/
inductive Effect where
  | stdoutWrite : String → Effect
  | stderrWrite : String → Effect
  | promptFirst : Nat → Effect
  | promptSecond : Effect
  | taskDeleteItems : Int → Option String → Effect
  | taskAddOrUpdate : RT → List Int → Effect
  | chunk : List (Ev Rec) → Effect
  | deleteAll : Effect
  | deleteIds : List Int → Effect
  | deleteByQuery : String → Effect
  | commit : Effect
  | optimize : Effect
  | optimizeIndex : String → Effect
deriving DecidableEq, Repr

/-- How the process ends: falling off the end of `handle` (exit code 0), a
`sys.exit(code)`, or an uncaught `TypeError` / `AttributeError`. -/
inductive Outcome where
  | completed
  | exited : Nat → Outcome
  | typeError
  | attributeError
deriving DecidableEq, Repr

/-- Model of `yes_or_no.lower().startswith('y')`: the answer counts as affirmative
when its first character, lowercased, is the letter y. -/
def affirmative (s : String) : Bool :=
  match s.data with
  | [] => false
  | c :: _ => c = 'y' || c = 'Y' 

/-- Model of `proceed_with_deletion(out, count, noinput)`: returns whether to proceed,
together with the prompts and messages issued. `answers` holds the successive
`raw_input` results; an absent answer is read as the empty string. The first
prompt is always issued when prompting is enabled; the second only when the
first was affirmative and the count exceeds 10000. -/
def proceed_with_deletion (count : Nat) (noinput : Bool) (answers : List String) :
    Bool × List Effect :=
  if noinput then (true, [])
  else
    if affirmative (answers.getD 0 "") then
      if 10000 < count then
        if affirmative (answers.getD 1 "") then
          (true, [Effect.promptFirst count, Effect.promptSecond])
        else
          (false, [Effect.promptFirst count, Effect.promptSecond,
            Effect.stdoutWrite "No action taken.\n"])
      else (true, [Effect.promptFirst count])
    else
      (false, [Effect.promptFirst count, Effect.stdoutWrite "No action taken.\n"])

/-- Model of `Command.delete_all`: counts the documents in the index, confirms, then
deletes everything and commits. With `self.si = None` (only possible when
`--optimize-everything` suppressed initialization) the very first
`self.si.query` raises `AttributeError`. -/
def delete_all (siSome : Bool) (env : Env) (noinput : Bool) (answers : List String) :
    List Effect × Option Outcome :=
  if siSome then
    let r := proceed_with_deletion env.indexCount noinput answers
    if r.1 then
      (r.2 ++ [Effect.stdoutWrite "Removing all items from your index because you said so.\n",
        Effect.stdoutWrite "  Marking all items as deleted...\n",
        Effect.deleteAll,
        Effect.stdoutWrite "  Committing the deletion...\n",
        Effect.commit,
        Effect.stdoutWrite "Done. The index is now empty.\n"], none)
    else (r.2, none)
  else ([], some Outcome.attributeError)

/-- Model of `Command.delete_by_datetime(dt)`: selects the primary keys with
`date_created__gt=dt` (strictly newer), confirms, then deletes those keys
from the index and commits. -/
def delete_by_datetime (siSome : Bool) (env : Env) (noinput : Bool)
    (answers : List String) (dt : Int) : List Effect × Option Outcome :=
  let pks := (env.db.filter fun r => decide (dt < r.date_created)).map Rec.pk
  let r := proceed_with_deletion pks.length noinput answers
  if r.1 then
    if siSome then
      (r.2 ++ [Effect.stdoutWrite "Deleting all item(s) newer than the datetime\n",
        Effect.deleteIds pks, Effect.commit], none)
    else
      (r.2 ++ [Effect.stdoutWrite "Deleting all item(s) newer than the datetime\n"],
        some Outcome.attributeError)
  else (r.2, none)

/-- Model of `Command.delete_by_query(query)`: counts the matches in the index,
confirms, deletes by query and commits. The count comes from `self.si`, so
an uninitialized handle raises before any prompt. -/
def delete_by_query (siSome : Bool) (env : Env) (noinput : Bool)
    (answers : List String) (q : String) : List Effect × Option Outcome :=
  if siSome then
    let r := proceed_with_deletion env.queryCount noinput answers
    if r.1 then
      (r.2 ++ [Effect.stdoutWrite "Deleting all item(s) that match the query\n",
        Effect.deleteByQuery q, Effect.commit], none)
    else (r.2, none)
  else ([], some Outcome.attributeError)

/-- Model of `Command.add_or_update(*items)`: dispatches the per-type Celery task for
the id tuple; when `self.type` is unset every type comparison is false and no
task is submitted. -/
def add_or_update (typ : Option RT) (ids : List Int) : List Effect :=
  Effect.stdoutWrite "Adding or updating item(s)\n" ::
    match typ with
    | some t => [Effect.taskAddOrUpdate t ids]
    | none => []

/-- Model of `Command.add_or_update_by_datetime(dt)`: selects the records with
`date_created__gte=dt` (at-or-after the timestamp) and runs the chunking
engine over them, with `count` equal to their number. -/
def add_or_update_by_datetime (env : Env) (dt : Int) : List Effect :=
  let qs := env.db.filter fun r => decide (dt ≤ r.date_created)
  [Effect.stdoutWrite "Adding or updating items(s) newer than the datetime\n",
   Effect.chunk (chunk_queryset_into_tasks qs qs.length 50 250)]

/-- Model of `Command.add_or_update_all`: for people, non-judges are filtered out and
the count is taken after filtering; for the other types the whole table is
iterated. Either way the chunking engine receives the items together with
their exact count. -/
def add_or_update_all (typ : RT) (env : Env) : List Effect :=
  let q := match typ with
    | RT.people => env.db.filter Rec.is_judge
    | _ => env.db
  [Effect.stdoutWrite "Adding or updating all items...\n",
   Effect.chunk (chunk_queryset_into_tasks q q.length 50 250)]

/-- Model of `Command.optimize_everything`: writes each configured URL, skips with a
warning any index whose schema does not load, and optimizes the rest. -/
def optimize_everything (env : Env) : List Effect :=
  Effect.stdoutWrite "Found indexes. Optimizing...\n" ::
    (env.solrUrls.map fun u =>
      if u.2 then [Effect.stdoutWrite " - index url\n", Effect.optimizeIndex u.1]
      else [Effect.stdoutWrite " - index url\n",
        Effect.stderrWrite "   Failed to load schema!"]).flatten
    ++ [Effect.stdoutWrite "Done.\n"]

/-- The usage error written when no action flag is given. -/
def usageError : String :=
  "Error: You must specify whether you wish to update, delete, commit, or optimize your index.\n"

/-- The update/delete section of `Command.handle` (the mode routing): returns
the effects and, when the section exits or raises, the outcome. `self.si`,
`self.solr_url` and `self.type` are initialized only when
`--optimize-everything` is absent; a helper that touches them while they are
`None` raises `AttributeError`. `Command.delete` takes a single positional
argument, so the unpacked call `self.delete(*options['items'])` raises
`TypeError` for an id list of two or more elements and passes the bare id for
a one-element list. The mode headers are written at verbosity 1, the default,
which is what this embedding fixes. -/
def mainPhase (opts : Options) (env : Env) (answers : List String) :
    List Effect × Option Outcome :=
  let siSome := !opts.optimize_everything
  let solrUrl : Option String :=
    if opts.optimize_everything then none else some env.solr_url
  let typ : Option RT := if opts.optimize_everything then none else opts.typ
  if opts.update then
    let hdr := [Effect.stdoutWrite "Running in update mode...\n"]
    if opts.everything then
      match typ with
      | some t => (hdr ++ add_or_update_all t env, none)
      | none => (hdr ++ [Effect.stdoutWrite "Adding or updating all items...\n"],
          some Outcome.attributeError)
    else
      match opts.datetime with
      | some dt =>
        match typ with
        | some _ => (hdr ++ add_or_update_by_datetime env dt, none)
        | none =>
          (hdr ++ [Effect.stdoutWrite "Adding or updating items(s) newer than the datetime\n"],
            some Outcome.attributeError)
      | none =>
        match opts.query with
        | some _ =>
          (hdr ++ [Effect.stderrWrite "Updating by query not implemented."],
            some (Outcome.exited 1))
        | none =>
          match opts.items with
          | some (i :: is) => (hdr ++ add_or_update typ (i :: is), none)
          | _ => (hdr, none)
  else if opts.delete then
    let hdr := [Effect.stdoutWrite "Running in deletion mode...\n"]
    if opts.everything then
      let r := delete_all siSome env opts.noinput answers
      (hdr ++ r.1, r.2)
    else
      match opts.datetime with
      | some dt =>
        match typ with
        | some _ =>
          let r := delete_by_datetime siSome env opts.noinput answers dt
          (hdr ++ r.1, r.2)
        | none => (hdr, some Outcome.attributeError)
      | none =>
        match opts.query with
        | some q =>
          let r := delete_by_query siSome env opts.noinput answers q
          (hdr ++ r.1, r.2)
        | none =>
          match opts.items with
          | some [i] =>
            (hdr ++ [Effect.stdoutWrite "Deleting items(s)\n",
              Effect.taskDeleteItems i solrUrl], none)
          | some (_ :: _ :: _) => (hdr, some Outcome.typeError)
          | _ => (hdr, none)
  else ([], none)

/-- The post-action section of `Command.handle`: `--do-commit`, `--optimize`,
`--optimize-everything` in that order, then the usage check. With
`--optimize-everything` set, `self.si` is `None`, so a simultaneously
requested commit or optimize raises `AttributeError`. -/
def postPhase (opts : Options) (env : Env) : List Effect × Outcome :=
  if opts.do_commit && opts.optimize_everything then ([], Outcome.attributeError)
  else
    let e1 := if opts.do_commit then [Effect.commit] else []
    if opts.optimize && opts.optimize_everything then (e1, Outcome.attributeError)
    else
      let e2 := e1 ++ (if opts.optimize then [Effect.optimize] else [])
      let e3 := e2 ++ (if opts.optimize_everything then optimize_everything env else [])
      if opts.update ∨ opts.delete ∨ opts.do_commit ∨ opts.optimize ∨
          opts.optimize_everything then
        (e3, Outcome.completed)
      else
        (e3 ++ [Effect.stderrWrite usageError], Outcome.exited 1)

/-- Model of `Command.handle`: the mode section, then — unless it exited or raised —
the post-action section. -/
def handle (opts : Options) (env : Env) (answers : List String) :
    List Effect × Outcome :=
  let m := mainPhase opts env answers
  match m.2 with
  | some out => (m.1, out)
  | none => (m.1 ++ (postPhase opts env).1, (postPhase opts env).2)

/-- Whether an effect touches the index or submits work to it. -/
def isIndexMutation : Effect → Bool
  | Effect.taskDeleteItems _ _ => true
  | Effect.taskAddOrUpdate _ _ => true
  | Effect.chunk _ => true
  | Effect.deleteAll => true
  | Effect.deleteIds _ => true
  | Effect.deleteByQuery _ => true
  | Effect.commit => true
  | Effect.optimize => true
  | Effect.optimizeIndex _ => true
  | _ => false

/-- Whether an effect is a confirmation prompt. -/
def isPrompt : Effect → Bool
  | Effect.promptFirst _ => true
  | Effect.promptSecond => true
  | _ => false

/-- How many confirmation prompts a list of effects contains. -/
def promptCount (effs : List Effect) : Nat := (effs.filter isPrompt).length

/-- The records a list of effects dispatches through the chunking engine. -/
def dispatchedRecords (effs : List Effect) : List Rec :=
  (effs.filterMap fun e => match e with
    | Effect.chunk t => some (submitsOf t).flatten
    | _ => none).flatten

/-- The primary keys a list of effects deletes via `si.delete(list(qs))`. -/
def deletedPks (effs : List Effect) : List Int :=
  (effs.filterMap fun e => match e with
    | Effect.deleteIds pks => some pks
    | _ => none).flatten

/-- An environment fixture for concrete runs. -/
def env0 : Env :=
  { db := [], indexCount := 0, queryCount := 0, solr_url := "http://solr/c",
    solrUrls := [] }

/-- An environment built from its components. -/
def envOf (db : List Rec) (ic qc : Nat) (u : String)
    (urls : List (String × Bool)) : Env :=
  { db := db, indexCount := ic, queryCount := qc, solr_url := u, solrUrls := urls }

/-- Update mode over records newer than a datetime, for the opinions type. -/
def updOpts (dt : Int) : Options :=
  { defaultOptions with update := true, typ := some RT.opinions, datetime := some dt }

/-- Deletion mode over records newer than a datetime, for the opinions type,
with prompts suppressed. -/
def delOpts (dt : Int) : Options :=
  { defaultOptions with delete := true, noinput := true, typ := some RT.opinions, datetime := some dt }

/-- A database holding one record created exactly at timestamp 5. -/
def env6 : Env :=
  envOf [{ pk := 1, date_created := 5, is_judge := false }] 0 0 "u" []

/-- No action is requested: none of the five action flags is set. -/
def noActionRequested (opts : Options) : Prop :=
  opts.update = false ∧ opts.delete = false ∧ opts.do_commit = false ∧
    opts.optimize = false ∧ opts.optimize_everything = false

/-- Update mode is combined with the query scope (and no earlier scope in the
routing chain shadows it). -/
def updateByQueryRequested (opts : Options) : Prop :=
  opts.update = true ∧ opts.everything = false ∧ opts.datetime = none ∧
    opts.query.isSome = true

theorem sliceList_nil (B : Nat) : sliceList B ([] : List α) = [] := by
  simp [sliceList]

theorem sliceList_eq_cons {B : Nat} (hB : 0 < B) {l : List α} (hl : l ≠ []) :
    sliceList B l = l.take B :: sliceList B (l.drop B) := by
  cases B with
  | zero => omega
  | succ B' =>
    cases l with
    | nil => exact absurd rfl hl
    | cons x xs => simp [sliceList]

theorem sliceList_ne_nil {B : Nat} {l : List α} (hl : l ≠ []) :
    sliceList B l ≠ [] := by
  cases l with
  | nil => exact absurd rfl hl
  | cons x xs => simp [sliceList]

theorem sliceList_join (B : Nat) : ∀ l : List α, (sliceList B l).flatten = l
  | [] => by simp [sliceList]
  | x :: xs => by
    have ih := sliceList_join B (xs.drop (B - 1))
    simp [sliceList, ih]
termination_by l => l.length
decreasing_by simp [List.length_drop]; omega

theorem sliceList_length {B : Nat} (hB : 0 < B) : ∀ l : List α,
    (sliceList B l).length = (l.length + (B - 1)) / B
  | [] => by
    simp [sliceList]
    exact (Nat.div_eq_of_lt (by omega)).symm
  | x :: xs => by
    have ih := sliceList_length hB (xs.drop (B - 1))
    simp only [sliceList, List.length_cons, List.length_drop] at ih ⊢
    rw [ih]
    rcases le_or_lt (B - 1) xs.length with hm | hm
    · rw [Nat.sub_add_cancel hm,
        show xs.length + 1 + (B - 1) = xs.length + B by omega,
        Nat.add_div_right _ hB]
    · rw [show xs.length - (B - 1) = 0 by omega, Nat.zero_add,
        Nat.div_eq_of_lt (by omega),
        show xs.length + 1 + (B - 1) = xs.length + B by omega,
        Nat.add_div_right _ hB, Nat.div_eq_of_lt (by omega)]
termination_by l => l.length
decreasing_by simp [List.length_drop]; omega

theorem sliceList_of_length_le {B : Nat} (hB : 0 < B) {l : List α} (hl : l ≠ [])
    (hlen : l.length ≤ B) : sliceList B l = [l] := by
  rw [sliceList_eq_cons hB hl, List.take_of_length_le hlen,
    List.drop_of_length_le hlen, sliceList_nil]

theorem sliceList_append {B : Nat} (hB : 0 < B) {l1 : List α} (h : l1.length = B)
    (l2 : List α) : sliceList B (l1 ++ l2) = l1 :: sliceList B l2 := by
  have hne : l1 ++ l2 ≠ [] := by
    intro hc
    rcases List.append_eq_nil.mp hc with ⟨h1, _⟩
    rw [h1] at h
    simp at h
    omega
  rw [sliceList_eq_cons hB hne]
  congr 1
  · rw [← h, List.take_left]
  · rw [← h, List.drop_left]

theorem sliceList_dropLast_length {B : Nat} (hB : 0 < B) :
    ∀ (l : List α), ∀ c ∈ (sliceList B l).dropLast, c.length = B
  | [] => by simp [sliceList]
  | x :: xs => by
    intro c hc
    rcases le_or_lt (x :: xs).length B with hlen | hlen
    · rw [sliceList_of_length_le hB (by simp) hlen] at hc
      simp at hc
    · rw [sliceList_eq_cons hB (by simp)] at hc
      have hdne : (x :: xs).drop B ≠ [] := by
        intro h0
        have := congrArg List.length h0
        simp only [List.length_drop, List.length_cons, List.length_nil] at this
        simp only [List.length_cons] at hlen
        omega
      rw [List.dropLast_cons_of_ne_nil (sliceList_ne_nil hdne)] at hc
      rcases List.mem_cons.mp hc with hc | hc
      · subst hc
        simp only [List.length_take, List.length_cons]
        simp only [List.length_cons] at hlen
        omega
      · exact sliceList_dropLast_length hB ((x :: xs).drop B) c hc
termination_by l => l.length
decreasing_by simp [List.length_drop]; omega

theorem sliceList_getLast_length {B : Nat} (hB : 0 < B) :
    ∀ (l : List α) (c : List α), (sliceList B l).getLast? = some c →
      c.length = if l.length % B = 0 then B else l.length % B
  | [], c => by simp [sliceList]
  | x :: xs, c => by
    intro hc
    rcases le_or_lt (x :: xs).length B with hlen | hlen
    · rw [sliceList_of_length_le hB (by simp) hlen] at hc
      simp at hc
      subst hc
      rcases Nat.lt_or_ge (x :: xs).length B with h | h
      · rw [Nat.mod_eq_of_lt h, if_neg (by simp)]
      · have hEq : (x :: xs).length = B := Nat.le_antisymm hlen h
        rw [hEq, Nat.mod_self, if_pos rfl]
    · rw [sliceList_eq_cons hB (by simp)] at hc
      have hdne : (x :: xs).drop B ≠ [] := by
        intro h0
        have := congrArg List.length h0
        simp only [List.length_drop, List.length_cons, List.length_nil] at this
        simp only [List.length_cons] at hlen
        omega
      obtain ⟨r, rs, hr⟩ := List.exists_cons_of_ne_nil (sliceList_ne_nil hdne (B := B))
      rw [hr, List.getLast?_cons_cons] at hc
      have ih := sliceList_getLast_length hB ((x :: xs).drop B) c (by rw [hr]; exact hc)
      rw [List.length_drop] at ih
      rw [Nat.mod_eq_sub_mod (by omega : B ≤ (x :: xs).length)]
      exact ih
termination_by l => l.length
decreasing_by simp [List.length_drop]; omega

@[simp] theorem dispatchEvents_nil : dispatchEvents ([] : List (Ev α)) = [] := rfl

@[simp] theorem dispatchEvents_submit (b : List α) (t : List (Ev α)) :
    dispatchEvents (Ev.submit b :: t) = Ev.submit b :: dispatchEvents t := rfl

@[simp] theorem dispatchEvents_join (w : List (List α)) (t : List (Ev α)) :
    dispatchEvents (Ev.join w :: t) = Ev.join w :: dispatchEvents t := rfl

@[simp] theorem dispatchEvents_progress (p c pct : Nat) (t : List (Ev α)) :
    dispatchEvents (Ev.progress p c pct :: t) = dispatchEvents t := rfl

@[simp] theorem submitsOf_nil : submitsOf ([] : List (Ev α)) = [] := rfl

@[simp] theorem submitsOf_cons_submit (b : List α) (t : List (Ev α)) :
    submitsOf (Ev.submit b :: t) = b :: submitsOf t := rfl

@[simp] theorem submitsOf_cons_join (w : List (List α)) (t : List (Ev α)) :
    submitsOf (Ev.join w :: t) = submitsOf t := rfl

@[simp] theorem submitsOf_cons_progress (p c pct : Nat) (t : List (Ev α)) :
    submitsOf (Ev.progress p c pct :: t) = submitsOf t := rfl

@[simp] theorem joinsOf_nil : joinsOf ([] : List (Ev α)) = [] := rfl

@[simp] theorem joinsOf_cons_submit (b : List α) (t : List (Ev α)) :
    joinsOf (Ev.submit b :: t) = joinsOf t := rfl

@[simp] theorem joinsOf_cons_join (w : List (List α)) (t : List (Ev α)) :
    joinsOf (Ev.join w :: t) = w :: joinsOf t := rfl

@[simp] theorem joinsOf_cons_progress (p c pct : Nat) (t : List (Ev α)) :
    joinsOf (Ev.progress p c pct :: t) = joinsOf t := rfl

@[simp] theorem progressOf_nil : progressOf ([] : List (Ev α)) = [] := rfl

@[simp] theorem progressOf_cons_submit (b : List α) (t : List (Ev α)) :
    progressOf (Ev.submit b :: t) = progressOf t := rfl

@[simp] theorem progressOf_cons_join (w : List (List α)) (t : List (Ev α)) :
    progressOf (Ev.join w :: t) = progressOf t := rfl

@[simp] theorem progressOf_cons_progress (p c pct : Nat) (t : List (Ev α)) :
    progressOf (Ev.progress p c pct :: t) = (p, c, pct) :: progressOf t := rfl

theorem submitsOf_dispatchEvents (t : List (Ev α)) :
    submitsOf (dispatchEvents t) = submitsOf t := by
  induction t with
  | nil => rfl
  | cons e t ih => cases e <;> simpa

theorem joinsOf_dispatchEvents (t : List (Ev α)) :
    joinsOf (dispatchEvents t) = joinsOf t := by
  induction t with
  | nil => rfl
  | cons e t ih => cases e <;> simpa

theorem submitsOf_append (s t : List (Ev α)) :
    submitsOf (s ++ t) = submitsOf s ++ submitsOf t := by
  simp [submitsOf]

theorem joinsOf_append (s t : List (Ev α)) :
    joinsOf (s ++ t) = joinsOf s ++ joinsOf t := by
  simp [joinsOf]

theorem submitsOf_map_submit (w : List (List α)) :
    submitsOf (w.map Ev.submit) = w := by
  induction w with
  | nil => rfl
  | cons b w ih => simpa

theorem joinsOf_map_submit (w : List (List α)) :
    joinsOf (w.map Ev.submit) = [] := by
  induction w with
  | nil => rfl
  | cons b w ih => simpa

theorem submitsOf_waveShape (ws : List (List (List α))) :
    submitsOf (waveShape ws) = ws.flatten := by
  induction ws with
  | nil => rfl
  | cons w ws ih =>
    simp [waveShape, submitsOf_append, submitsOf_map_submit, ih]

theorem joinsOf_waveShape (ws : List (List (List α))) :
    joinsOf (waveShape ws) = ws := by
  induction ws with
  | nil => rfl
  | cons w ws ih =>
    simp [waveShape, joinsOf_append, joinsOf_map_submit, ih]

theorem pendShape_nil_pending {C : Nat} (hC : 0 < C) (bs : List (List α)) :
    pendShape C [] bs = waveShape (sliceList C bs) := by
  cases bs with
  | nil => simp [pendShape, sliceList_nil, waveShape]
  | cons b bs' =>
    rw [show sliceList C (b :: bs') = (b :: bs').take C :: sliceList C ((b :: bs').drop C)
      from sliceList_eq_cons hC (by simp)]
    simp [pendShape, waveShape]

theorem pendShape_cons {C : Nat} (p : List (List α)) (b : List α)
    {bs : List (List α)} (hbs : bs ≠ []) (hlt : p.length + 1 < C) :
    pendShape C p (b :: bs) = Ev.submit b :: pendShape C (p ++ [b]) bs := by
  obtain ⟨b', bs', rfl⟩ := List.exists_cons_of_ne_nil hbs
  obtain ⟨k, hk⟩ : ∃ k, C - p.length = k + 2 := ⟨C - p.length - 2, by omega⟩
  have hk' : C - (p ++ [b]).length = k + 1 := by
    simp only [List.length_append, List.length_cons, List.length_nil]
    omega
  simp only [pendShape, hk, hk', List.take_succ_cons, List.drop_succ_cons,
    List.map_cons, List.cons_append, List.append_assoc, List.singleton_append, List.nil_append]

/-- Master characterization of the dispatch behaviour of the loop of
`Command._chunk_queryset_into_tasks`: from a mid-run state whose current
bundle is strictly below `bundle_size`, whose pending subtask list is
strictly below `chunksize`, and where `count` equals the items already
processed plus the ones still to come, the submit and join events of the
rest of the run have exactly the `pendShape` form over the `sliceList`
partition of the remaining items. -/
theorem chunkLoop_dispatch {B C : Nat} (hB : 0 < B) (hC : 0 < C) :
    ∀ (xs : List α) (count processed : Nat) (p : List (List α)) (bundle : List α),
      count = processed + xs.length →
      bundle.length < B →
      p.length < C →
      (xs = [] → bundle = []) →
      dispatchEvents (chunkLoop count B C xs processed p bundle) =
        pendShape C p (sliceList B (bundle ++ xs))
  | [], count, processed, p, bundle => fun hcount hb hp hnil => by
    rw [hnil rfl]
    simp [chunkLoop, sliceList_nil, pendShape]
  | item :: rest, count, processed, p, bundle => fun hcount hb hp hnil => by
    simp only [List.length_cons] at hcount
    by_cases hlast : count = processed + 1
    case pos =>
      have hrest : rest = [] := List.eq_nil_of_length_eq_zero (by omega)
      subst hrest
      have hseal : B ≤ (bundle ++ [item]).length ∨ count = processed + 1 := Or.inr hlast
      have hjoin : C ≤ (p ++ [bundle ++ [item]]).length ∨ count = processed + 1 :=
        Or.inr hlast
      simp only [chunkLoop, if_pos hseal, if_pos hjoin, dispatchEvents_submit,
        dispatchEvents_join, dispatchEvents_progress, dispatchEvents_nil]
      have hone : sliceList B (bundle ++ [item]) = [bundle ++ [item]] :=
        sliceList_of_length_le hB (by simp)
          (by simp only [List.length_append, List.length_cons, List.length_nil]; omega)
      rw [hone]
      have htk : C - p.length ≠ 0 := by omega
      simp [pendShape, sliceList_nil, waveShape, List.take_of_length_le,
        List.drop_of_length_le, Nat.one_le_iff_ne_zero.mpr htk]
    case neg =>
      have hrest : rest ≠ [] := by
        intro h
        subst h
        simp at hcount
        omega
      by_cases hsz : B ≤ (bundle ++ [item]).length
      case pos =>
        have hlen1 : (bundle ++ [item]).length = B := by
          simp only [List.length_append, List.length_cons, List.length_nil] at hsz ⊢
          omega
        have hslice : sliceList B (bundle ++ item :: rest) =
            (bundle ++ [item]) :: sliceList B rest := by
          rw [List.append_cons]
          exact sliceList_append hB hlen1 rest
        by_cases hjn : C ≤ (p ++ [bundle ++ [item]]).length
        case pos =>
          have hpC : p.length + 1 = C := by
            simp only [List.length_append, List.length_cons, List.length_nil] at hjn
            omega
          have ih := chunkLoop_dispatch hB hC rest count (processed + 1) [] []
            (by omega) hB (by simpa using hC) (fun _ => rfl)
          simp only [chunkLoop, if_pos (Or.inl hsz), if_pos (Or.inl hjn),
            dispatchEvents_submit, dispatchEvents_join, dispatchEvents_progress]
          rw [show ([] : List α) ++ rest = rest from List.nil_append rest] at ih
          rw [ih, pendShape_nil_pending hC, hslice]
          have h1 : C - p.length = 1 := by omega
          simp [pendShape, h1]
        case neg =>
          have hpC : p.length + 1 < C := by
            simp only [List.length_append, List.length_cons, List.length_nil] at hjn
            omega
          have ih := chunkLoop_dispatch hB hC rest count (processed + 1)
            (p ++ [bundle ++ [item]]) []
            (by omega) hB (by simp; omega) (fun h => absurd h hrest)
          simp only [chunkLoop, if_pos (Or.inl hsz), if_neg (not_or.mpr ⟨hjn, hlast⟩),
            dispatchEvents_submit, dispatchEvents_progress]
          rw [show ([] : List α) ++ rest = rest from List.nil_append rest] at ih
          rw [ih, hslice, pendShape_cons p (bundle ++ [item]) (sliceList_ne_nil hrest) hpC]
      case neg =>
        have hbl : (bundle ++ [item]).length < B := by omega
        have ih := chunkLoop_dispatch hB hC rest count (processed + 1) p (bundle ++ [item])
          (by omega) hbl hp (fun h => absurd h hrest)
        simp only [chunkLoop, if_neg (not_or.mpr ⟨hsz, hlast⟩),
          if_neg (not_or.mpr ⟨show ¬ C ≤ p.length by omega, hlast⟩),
          dispatchEvents_progress]
        rw [ih]
        simp

/-- Top-level corollary: for a run of `_chunk_queryset_into_tasks` with
`count` equal to the item count, the dispatch events are exactly the
wave-shaped trace over the `chunksize`-grouping of the `bundle_size`-chunks. -/
theorem chunk_dispatch_shape {B C : Nat} (hB : 0 < B) (hC : 0 < C) (xs : List α) :
    dispatchEvents (chunk_queryset_into_tasks xs xs.length C B) =
      waveShape (sliceList C (sliceList B xs)) := by
  have h := chunkLoop_dispatch hB hC xs xs.length 0 [] []
    (by simp) hB hC (fun _ => rfl)
  rw [chunk_queryset_into_tasks, h, List.nil_append, pendShape_nil_pending hC]

theorem emittedBundles_eq {B C : Nat} (hB : 0 < B) (hC : 0 < C) (xs : List α) :
    emittedBundles xs B C = sliceList B xs := by
  rw [emittedBundles, ← submitsOf_dispatchEvents, chunk_dispatch_shape hB hC,
    submitsOf_waveShape, sliceList_join]

theorem joinedWaves_eq {B C : Nat} (hB : 0 < B) (hC : 0 < C) (xs : List α) :
    joinedWaves xs B C = sliceList C (sliceList B xs) := by
  rw [joinedWaves, ← joinsOf_dispatchEvents, chunk_dispatch_shape hB hC,
    joinsOf_waveShape]

/-- C1: for every record sequence of length `N` and every `bundle_size`
`B > 0` (and any positive `chunksize`), the chunking engine emits
`ceil(N/B)` bundles; their concatenation is the input sequence in order;
every bundle except possibly the last has exactly `B` records; the last
bundle has `N mod B` records, or `B` when `N mod B = 0`; and a final
partial bundle is still emitted, never dropped (the bundle list is
nonempty whenever the input is). -/
theorem uow_builder_bundling (xs : List α) (B C : Nat) (hB : 0 < B) (hC : 0 < C) :
    (emittedBundles xs B C).length = (xs.length + (B - 1)) / B ∧
    (emittedBundles xs B C).flatten = xs ∧
    (∀ b ∈ (emittedBundles xs B C).dropLast, b.length = B) ∧
    (∀ b, (emittedBundles xs B C).getLast? = some b →
      b.length = if xs.length % B = 0 then B else xs.length % B) ∧
    (xs ≠ [] → emittedBundles xs B C ≠ []) := by
  rw [emittedBundles_eq hB hC]
  exact ⟨sliceList_length hB xs, sliceList_join B xs,
    sliceList_dropLast_length hB xs,
    fun b hb => sliceList_getLast_length hB xs b hb,
    fun h => sliceList_ne_nil h⟩

/-- Witness for C1 at a concrete input: 5 records, bundle size 2,
chunk size 3. -/
theorem uow_builder_bundling_witness :
    (0 : Nat) < 2 ∧ (0 : Nat) < 3 ∧
      (emittedBundles ([1, 2, 3, 4, 5] : List Nat) 2 3).length = (5 + (2 - 1)) / 2 ∧
      (emittedBundles ([1, 2, 3, 4, 5] : List Nat) 2 3).flatten = [1, 2, 3, 4, 5] :=
  ⟨by decide, by decide,
    (uow_builder_bundling ([1, 2, 3, 4, 5] : List Nat) 2 3 (by decide) (by decide)).1,
    (uow_builder_bundling ([1, 2, 3, 4, 5] : List Nat) 2 3 (by decide) (by decide)).2.1⟩

/-- C2: for every run over `N` records producing `M` sealed bundles and any
`chunk_size C > 0`, the dispatch loop performs exactly `ceil(M/C)` blocking
join operations; and the dispatch trace is exactly, for each joined wave,
the submit events of precisely that wave's tasks followed by the wave's
join — so every task of a wave has been submitted as part of the wave's
task group before that wave's join call is issued. -/
theorem dispatch_batcher_waves (xs : List α) (B C : Nat) (hB : 0 < B) (hC : 0 < C) :
    (joinedWaves xs B C).length = ((emittedBundles xs B C).length + (C - 1)) / C ∧
    dispatchEvents (chunk_queryset_into_tasks xs xs.length C B) =
      waveShape (joinedWaves xs B C) := by
  constructor
  · rw [joinedWaves_eq hB hC, emittedBundles_eq hB hC]
    exact sliceList_length hC _
  · rw [joinedWaves_eq hB hC]
    exact chunk_dispatch_shape hB hC xs

/-- Witness for C2 at a concrete input: 5 records, bundle size 2 (3 bundles),
chunk size 2 (2 waves). -/
theorem dispatch_batcher_waves_witness :
    (0 : Nat) < 2 ∧
      (joinedWaves ([1, 2, 3, 4, 5] : List Nat) 2 2).length =
        ((emittedBundles ([1, 2, 3, 4, 5] : List Nat) 2 2).length + (2 - 1)) / 2 ∧
      dispatchEvents (chunk_queryset_into_tasks ([1, 2, 3, 4, 5] : List Nat) 5 2 2) =
        waveShape (joinedWaves ([1, 2, 3, 4, 5] : List Nat) 2 2) :=
  ⟨by decide,
    (dispatch_batcher_waves ([1, 2, 3, 4, 5] : List Nat) 2 2 (by decide) (by decide)).1,
    (dispatch_batcher_waves ([1, 2, 3, 4, 5] : List Nat) 2 2 (by decide) (by decide)).2⟩

theorem oneWaveInFlight_dispatchEvents [DecidableEq α] :
    ∀ (t : List (Ev α)) (pending : List (List α)),
      oneWaveInFlight (dispatchEvents t) pending = oneWaveInFlight t pending
  | [], _ => rfl
  | Ev.submit b :: t, pending => oneWaveInFlight_dispatchEvents t (pending ++ [b])
  | Ev.join w :: t, pending =>
    congrArg (decide (w = pending) && ·) (oneWaveInFlight_dispatchEvents t [])
  | Ev.progress _ _ _ :: t, pending => oneWaveInFlight_dispatchEvents t pending

theorem oneWaveInFlight_submits [DecidableEq α] :
    ∀ (w : List (List α)) (t : List (Ev α)) (pending : List (List α)),
      oneWaveInFlight (w.map Ev.submit ++ t) pending = oneWaveInFlight t (pending ++ w)
  | [], t, pending => by simp
  | b :: w, t, pending => by
    have ih := oneWaveInFlight_submits w t (pending ++ [b])
    rw [show oneWaveInFlight ((b :: w).map Ev.submit ++ t) pending
        = oneWaveInFlight (w.map Ev.submit ++ t) (pending ++ [b]) from rfl, ih,
      List.append_assoc, List.singleton_append]

theorem oneWaveInFlight_waveShape [DecidableEq α] (ws : List (List (List α))) :
    oneWaveInFlight (waveShape ws) [] = true := by
  induction ws with
  | nil => rfl
  | cons w ws ih =>
    rw [waveShape, oneWaveInFlight_submits]
    simp [oneWaveInFlight, ih]

/-- C3: at every point of a dispatch run at most one wave is in flight —
every join operation joins exactly the tasks submitted since the previous
join (so no task of the next wave is submitted before the current wave's
blocking join), and no submitted task is left unjoined at the end. -/
theorem single_wave_in_flight [DecidableEq α] (xs : List α) (B C : Nat)
    (hB : 0 < B) (hC : 0 < C) :
    oneWaveInFlight (chunk_queryset_into_tasks xs xs.length C B) [] = true := by
  rw [← oneWaveInFlight_dispatchEvents, chunk_dispatch_shape hB hC]
  exact oneWaveInFlight_waveShape _

/-- Witness for C3 at a concrete input: 7 records, bundle size 3,
chunk size 2. -/
theorem single_wave_in_flight_witness :
    (0 : Nat) < 3 ∧ (0 : Nat) < 2 ∧
      oneWaveInFlight (chunk_queryset_into_tasks ([1, 2, 3, 4, 5, 6, 7] : List Nat) 7 2 3)
        [] = true :=
  ⟨by decide, by decide,
    single_wave_in_flight ([1, 2, 3, 4, 5, 6, 7] : List Nat) 3 2 (by decide) (by decide)⟩

theorem chunkLoop_progress :
    ∀ (xs : List α) (count B C processed : Nat) (p : List (List α)) (bundle : List α),
      progressOf (chunkLoop count B C xs processed p bundle) =
        progressSeq processed count xs.length
  | [], _, _, _, _, _, _ => by simp [chunkLoop, progressSeq]
  | item :: rest, count, B, C, processed, p, bundle => by
    simp only [chunkLoop, List.length_cons]
    split_ifs with h1 h2 h3
    · simp [progressSeq, chunkLoop_progress rest count B C (processed + 1) [] []]
    · simp [progressSeq,
        chunkLoop_progress rest count B C (processed + 1) (p ++ [bundle ++ [item]]) []]
    · simp [progressSeq, chunkLoop_progress rest count B C (processed + 1) [] (bundle ++ [item])]
    · simp [progressSeq, chunkLoop_progress rest count B C (processed + 1) p (bundle ++ [item])]

theorem progressSeq_length (processed count : Nat) :
    ∀ n, (progressSeq processed count n).length = n
  | 0 => rfl
  | n + 1 => by simp [progressSeq, progressSeq_length (processed + 1) count n]

/-- C8: a run of the chunking engine writes exactly one progress line per
record processed (not per bundle): the data of the progress writes is the
per-record sequence `1/count`, `2/count`, ... with the rounded percentage,
so there are as many progress lines as records; and for 3 records with
bundle size 2 and chunk size 1 the lines written are
"\rProcessed 1/3 (33%)", "\rProcessed 2/3 (67%)", "\rProcessed 3/3 (100%)"
— each prefixed with a carriage return so it overwrites the previous one. -/
theorem per_record_progress (xs : List Nat) (count B C : Nat) :
    progressOf (chunk_queryset_into_tasks xs count C B) = progressSeq 0 count xs.length ∧
    (progressOf (chunk_queryset_into_tasks xs count C B)).length = xs.length ∧
    progressLines (chunk_queryset_into_tasks ([10, 20, 30] : List Nat) 3 1 2) =
      ["\rProcessed 1/3 (33%)", "\rProcessed 2/3 (67%)", "\rProcessed 3/3 (100%)"] := by
  refine ⟨chunkLoop_progress xs count B C 0 [] [], ?_, by decide⟩
  rw [chunk_queryset_into_tasks, chunkLoop_progress xs count B C 0 [] [],
    progressSeq_length]

theorem handle_main_some (opts : Options) (env : Env) (answers : List String)
    (out : Outcome) (h : (mainPhase opts env answers).2 = some out) :
    handle opts env answers = ((mainPhase opts env answers).1, out) := by
  simp only [handle]
  rw [h]

theorem handle_main_none (opts : Options) (env : Env) (answers : List String)
    (h : (mainPhase opts env answers).2 = none) :
    handle opts env answers =
      ((mainPhase opts env answers).1 ++ (postPhase opts env).1,
        (postPhase opts env).2) := by
  simp only [handle]
  rw [h]

/-- C4 (code defect): in delete mode with the ByIds scope and id list
`[1, 2]`, the run raises `TypeError` — `Command.delete` takes one positional
argument while `handle` unpacks the list — so no delete task at all is
submitted, contrary to the claim that exactly one task carrying the id list
is submitted; and for the one-element list `[3]` the single submitted task
carries the bare id `3` with the index URL, not the list `[3]`. -/
theorem delete_by_ids_typeerror :
    (handle { defaultOptions with delete := true, items := some [1, 2] } env0 []).2 =
        Outcome.typeError ∧
    (∀ e ∈ (handle { defaultOptions with delete := true, items := some [1, 2] }
        env0 []).1, isIndexMutation e = false) ∧
    (handle { defaultOptions with delete := true, items := some [3] } env0 []).1 =
      [Effect.stdoutWrite "Running in deletion mode...\n",
       Effect.stdoutWrite "Deleting items(s)\n",
       Effect.taskDeleteItems 3 (some "http://solr/c")] :=
  ⟨rfl, by decide, rfl⟩

/-- C5 counterexample: requesting the commit flag together with
optimize-everything does not result in a commit at all — the index handle is
never initialized in that case, so `self.si.commit()` raises
`AttributeError` and no commit operation reaches the index. -/
theorem commit_with_optimize_everything_no_commit :
    (handle { defaultOptions with do_commit := true, optimize_everything := true }
        env0 []).2 = Outcome.attributeError ∧
    Effect.commit ∉
      (handle { defaultOptions with do_commit := true, optimize_everything := true }
        env0 []).1 :=
  ⟨rfl, by decide⟩

/-- C5 amended: whenever the commit flag is requested without
optimize-everything and the primary action finishes without exiting or
raising, a commit is issued against the index immediately after the primary
action's effects, independently of the mode and of the optimize flag (which
appends its own operation right after), and the run completes normally. -/
theorem commit_after_primary_action (opts : Options) (env : Env)
    (answers : List String) (hoe : opts.optimize_everything = false)
    (hdc : opts.do_commit = true)
    (hmain : (mainPhase opts env answers).2 = none) :
    handle opts env answers =
      ((mainPhase opts env answers).1 ++
        Effect.commit :: (if opts.optimize then [Effect.optimize] else []),
        Outcome.completed) := by
  rw [handle_main_none opts env answers hmain]
  simp [postPhase, hoe, hdc]

/-- Witness for C5 at a concrete input: only the commit flag set. -/
theorem commit_after_primary_action_witness :
    (mainPhase { defaultOptions with do_commit := true } env0 []).2 = none ∧
    handle { defaultOptions with do_commit := true } env0 [] =
      ((mainPhase { defaultOptions with do_commit := true } env0 []).1 ++
        Effect.commit ::
          (if ({ defaultOptions with do_commit := true } : Options).optimize
            then [Effect.optimize] else []),
        Outcome.completed) :=
  ⟨rfl, commit_after_primary_action { defaultOptions with do_commit := true }
    env0 [] rfl rfl rfl⟩

/-- C6 counterexample: with timestamp 5 and a single record created exactly
at 5, update-by-datetime dispatches that record (its filter is
`date_created__gte`, at-or-after) while delete-by-datetime selects nothing —
so a record created exactly at the timestamp IS selected by the update,
contrary to the claim that neither operation selects it. -/
theorem datetime_boundary_counterexample :
    dispatchedRecords (handle (updOpts 5) env6 []).1 =
      [{ pk := 1, date_created := 5, is_judge := false }] ∧
    deletedPks (handle (delOpts 5) env6 []).1 = [] :=
  ⟨rfl, rfl⟩

/-- C6 amended: for every timestamp, delete-by-datetime acts exactly on the
records whose creation time is strictly greater than the timestamp, while
update-by-datetime acts exactly on the records whose creation time is
greater than or equal to it; hence a record created exactly at the timestamp
is selected by the update but not by the delete. -/
theorem datetime_selection (db : List Rec) (dt : Int) (ic qc : Nat) (u : String)
    (urls : List (String × Bool)) (r : Rec) :
    dispatchedRecords (handle (updOpts dt) (envOf db ic qc u urls) []).1 =
      db.filter (fun s => decide (dt ≤ s.date_created)) ∧
    deletedPks (handle (delOpts dt) (envOf db ic qc u urls) []).1 =
      (db.filter fun s => decide (dt < s.date_created)).map Rec.pk ∧
    (r ∈ dispatchedRecords (handle (updOpts dt) (envOf db ic qc u urls) []).1 ↔
      r ∈ db ∧ dt ≤ r.date_created) := by
  have hflat : ∀ qs : List Rec,
      (submitsOf (chunk_queryset_into_tasks qs qs.length 50 250)).flatten = qs := by
    intro qs
    have h := emittedBundles_eq (show (0 : Nat) < 250 by decide)
      (show (0 : Nat) < 50 by decide) qs
    rw [emittedBundles] at h
    rw [h, sliceList_join]
  have h1 : dispatchedRecords (handle (updOpts dt) (envOf db ic qc u urls) []).1 =
      db.filter (fun s => decide (dt ≤ s.date_created)) := by
    simp [handle, mainPhase, postPhase, add_or_update_by_datetime, updOpts,
      envOf, defaultOptions, dispatchedRecords, hflat]
  refine ⟨h1, ?_, ?_⟩
  · simp [handle, mainPhase, postPhase, delete_by_datetime, proceed_with_deletion,
      delOpts, envOf, defaultOptions, deletedPks]
  · rw [h1]
    simp [List.mem_filter]

/-- C10: in update or delete mode with no scope selector supplied — or with
the ByIds scope given an empty id list — and no post-action flag, the command
submits no task and performs no index operation, yet completes normally with
exit code 0: the action flag was set, so no usage error is raised. -/
theorem no_scope_noop (opts : Options) (env : Env) (answers : List String)
    (hact : opts.update = true ∨ opts.delete = true)
    (hev : opts.everything = false) (hdt : opts.datetime = none)
    (hq : opts.query = none) (hit : opts.items = none ∨ opts.items = some [])
    (hdc : opts.do_commit = false) (hopt : opts.optimize = false)
    (hoe : opts.optimize_everything = false) :
    (handle opts env answers).2 = Outcome.completed ∧
    ∀ e ∈ (handle opts env answers).1, isIndexMutation e = false := by
  have hmain : mainPhase opts env answers =
      (if opts.update then [Effect.stdoutWrite "Running in update mode...\n"]
       else [Effect.stdoutWrite "Running in deletion mode...\n"], none) := by
    cases hu : opts.update with
    | true =>
      rcases hit with hit | hit <;> simp [mainPhase, hu, hev, hdt, hq, hit]
    | false =>
      have hd : opts.delete = true := by
        rcases hact with h | h
        · rw [hu] at h
          exact absurd h (by simp)
        · exact h
      rcases hit with hit | hit <;> simp [mainPhase, hu, hd, hev, hdt, hq, hit]
  have hpost : postPhase opts env = ([], Outcome.completed) := by
    rcases hact with h | h <;> simp [postPhase, hdc, hopt, hoe, h]
  rw [handle_main_none opts env answers (by rw [hmain])]
  rw [hmain, hpost]
  constructor
  · rfl
  · cases opts.update <;> simp [isIndexMutation]

/-- Witness for C10 at a concrete input: update mode with an empty id list. -/
theorem no_scope_noop_witness :
    (handle { defaultOptions with update := true, items := some [] } env0 []).2 =
      Outcome.completed ∧
    ∀ e ∈ (handle { defaultOptions with update := true, items := some [] }
      env0 []).1, isIndexMutation e = false :=
  no_scope_noop { defaultOptions with update := true, items := some [] } env0 []
    (Or.inl rfl) rfl rfl rfl (Or.inr rfl) rfl rfl rfl

theorem proceed_effects_no_mutation (c : Nat) (n : Bool) (a : List String) :
    ∀ e ∈ (proceed_with_deletion c n a).2, isIndexMutation e = false := by
  unfold proceed_with_deletion
  split_ifs <;> simp [isIndexMutation]

/-- C7: with prompting enabled the confirmation gate issues exactly one
prompt when the count is at most 10000 (in particular at exactly 10000);
above 10000 the second, stronger prompt is issued exactly when the first
answer was affirmative; the gate permits the deletion iff every issued
prompt was answered affirmatively; with the noinput override it permits the
operation with no prompts at all; and in delete-everything mode a refusal by
the gate (declining either prompt) leaves the index untouched — no delete
and no commit are issued — while the run still completes normally rather
than exiting with an error. -/
theorem confirmation_gate (count : Nat) (a1 a2 : String) (env : Env) :
    (count ≤ 10000 →
      promptCount (proceed_with_deletion count false [a1, a2]).2 = 1) ∧
    (10000 < count →
      promptCount (proceed_with_deletion count false [a1, a2]).2 =
        if affirmative a1 then 2 else 1) ∧
    ((proceed_with_deletion count false [a1, a2]).1 = true ↔
      (affirmative a1 = true ∧ (10000 < count → affirmative a2 = true))) ∧
    proceed_with_deletion count true [a1, a2] = (true, []) ∧
    ((proceed_with_deletion env.indexCount false [a1, a2]).1 = false →
      (handle { defaultOptions with delete := true, everything := true } env
          [a1, a2]).2 = Outcome.completed ∧
      ∀ e ∈ (handle { defaultOptions with delete := true, everything := true } env
          [a1, a2]).1, isIndexMutation e = false) := by
  refine ⟨?_, ?_, ?_, ?_, ?_⟩
  · intro h
    by_cases ha : affirmative a1 <;>
      simp [proceed_with_deletion, ha, promptCount, isPrompt, Nat.not_lt.mpr h]
  · intro h
    by_cases ha : affirmative a1 <;> by_cases hb : affirmative a2 <;>
      simp [proceed_with_deletion, ha, hb, h, promptCount, isPrompt]
  · by_cases ha : affirmative a1 <;> by_cases hc : 10000 < count <;>
      by_cases hb : affirmative a2 <;>
      simp [proceed_with_deletion, ha, hb, hc]
  · simp [proceed_with_deletion]
  · intro hp
    have hmain : mainPhase { defaultOptions with delete := true, everything := true }
        env [a1, a2] =
        (Effect.stdoutWrite "Running in deletion mode...\n" ::
          (proceed_with_deletion env.indexCount false [a1, a2]).2, none) := by
      simp [mainPhase, delete_all, hp, defaultOptions]
    have hpost : postPhase { defaultOptions with delete := true, everything := true }
        env = ([], Outcome.completed) := by
      simp [postPhase, defaultOptions]
    rw [handle_main_none _ env [a1, a2] (by rw [hmain])]
    rw [hmain, hpost]
    constructor
    · rfl
    · intro e he
      simp only [List.append_nil, List.mem_cons] at he
      rcases he with he | he
      · rw [he]
        rfl
      · exact proceed_effects_no_mutation env.indexCount false [a1, a2] e he

/-- Witness for C7 at concrete inputs: 10000 items trigger one prompt,
10001 trigger two when the first answer was affirmative. -/
theorem confirmation_gate_witness :
    promptCount (proceed_with_deletion 10000 false ["y", "n"]).2 = 1 ∧
    promptCount (proceed_with_deletion 10001 false ["y", "n"]).2 = 2 := by
  refine ⟨(confirmation_gate 10000 "y" "n" env0).1 (by decide), ?_⟩
  have h := (confirmation_gate 10001 "y" "n" env0).2.1 (by decide)
  rw [h]
  decide

theorem delete_all_no_exit (s : Bool) (env : Env) (n : Bool) (a : List String) :
    (delete_all s env n a).2 ≠ some (Outcome.exited 1) := by
  simp only [delete_all]
  split_ifs <;> simp

theorem delete_by_datetime_no_exit (s : Bool) (env : Env) (n : Bool)
    (a : List String) (dt : Int) :
    (delete_by_datetime s env n a dt).2 ≠ some (Outcome.exited 1) := by
  simp only [delete_by_datetime]
  split_ifs <;> simp

theorem delete_by_query_no_exit (s : Bool) (env : Env) (n : Bool)
    (a : List String) (q : String) :
    (delete_by_query s env n a q).2 ≠ some (Outcome.exited 1) := by
  simp only [delete_by_query]
  split_ifs <;> simp

theorem mainPhase_exit_iff (opts : Options) (env : Env) (answers : List String) :
    (mainPhase opts env answers).2 = some (Outcome.exited 1) ↔
      updateByQueryRequested opts := by
  unfold updateByQueryRequested
  cases hu : opts.update with
  | true =>
    cases he : opts.everything with
    | true =>
      rcases ht : (if opts.optimize_everything then none else opts.typ) with _ | t <;>
        simp [mainPhase, hu, he, ht]
    | false =>
      rcases hd : opts.datetime with _ | dt
      · rcases hq : opts.query with _ | q
        · rcases hi : opts.items with _ | l
          · simp [mainPhase, hu, he, hd, hq, hi]
          · cases l <;> simp [mainPhase, hu, he, hd, hq, hi]
        · simp [mainPhase, hu, he, hd, hq]
      · rcases ht : (if opts.optimize_everything then none else opts.typ) with _ | t <;>
          simp [mainPhase, hu, he, hd, ht]
  | false =>
    cases hd : opts.delete with
    | true =>
      cases he : opts.everything with
      | true =>
        have hne := delete_all_no_exit (!opts.optimize_everything) env
          opts.noinput answers
        simp [mainPhase, hu, hd, he, hne]
      | false =>
        rcases hdt : opts.datetime with _ | dt
        · rcases hq : opts.query with _ | q
          · rcases hi : opts.items with _ | l
            · simp [mainPhase, hu, hd, he, hdt, hq, hi]
            · rcases l with _ | ⟨i, _ | ⟨j, l'⟩⟩ <;>
                simp [mainPhase, hu, hd, he, hdt, hq, hi]
          · have hne := delete_by_query_no_exit (!opts.optimize_everything) env
              opts.noinput answers q
            simp [mainPhase, hu, hd, he, hdt, hq, hne]
        · rcases ht : (if opts.optimize_everything then none else opts.typ) with _ | t
          · simp [mainPhase, hu, hd, he, hdt, ht]
          · have hne := delete_by_datetime_no_exit (!opts.optimize_everything) env
              opts.noinput answers dt
            simp [mainPhase, hu, hd, he, hdt, ht, hne]
    | false => simp [mainPhase, hu, hd]

theorem mainPhase_noaction (opts : Options) (env : Env) (answers : List String)
    (h : noActionRequested opts) : mainPhase opts env answers = ([], none) := by
  obtain ⟨h1, h2, _, _, _⟩ := h
  simp [mainPhase, h1, h2]

theorem postPhase_noaction (opts : Options) (env : Env) (h : noActionRequested opts) :
    postPhase opts env = ([Effect.stderrWrite usageError], Outcome.exited 1) := by
  obtain ⟨h1, h2, h3, h4, h5⟩ := h
  simp [postPhase, h1, h2, h3, h4, h5]

theorem postPhase_exit_iff (opts : Options) (env : Env) :
    (postPhase opts env).2 = Outcome.exited 1 ↔ noActionRequested opts := by
  unfold noActionRequested
  cases hu : opts.update <;> cases hd : opts.delete <;> cases hc : opts.do_commit <;>
    cases ho : opts.optimize <;> cases he : opts.optimize_everything <;>
    simp [postPhase, hu, hd, hc, ho, he]

theorem mainPhase_query_update (opts : Options) (env : Env) (answers : List String)
    (h : updateByQueryRequested opts) :
    mainPhase opts env answers =
      ([Effect.stdoutWrite "Running in update mode...\n",
        Effect.stderrWrite "Updating by query not implemented."],
       some (Outcome.exited 1)) := by
  obtain ⟨h1, h2, h3, h4⟩ := h
  obtain ⟨q, hq⟩ := Option.isSome_iff_exists.mp h4
  simp [mainPhase, h1, h2, h3, hq]

/-- C9: the command writes a usage error to standard error, exits with code
1 and performs no index mutation exactly in two cases — when none of the
update, delete, commit, optimize or optimize-everything flags is requested,
and when update mode is combined with the query scope; in the latter case
the exit happens inside the mode section, before any commit or optimize
post-action could run. -/
theorem usage_error_exits (opts : Options) (env : Env) (answers : List String) :
    ((handle opts env answers).2 = Outcome.exited 1 ↔
      (noActionRequested opts ∨ updateByQueryRequested opts)) ∧
    (noActionRequested opts →
      (handle opts env answers).1 = [Effect.stderrWrite usageError] ∧
      ∀ e ∈ (handle opts env answers).1, isIndexMutation e = false) ∧
    (updateByQueryRequested opts →
      (handle opts env answers).1 =
        [Effect.stdoutWrite "Running in update mode...\n",
         Effect.stderrWrite "Updating by query not implemented."] ∧
      (handle opts env answers).2 = Outcome.exited 1 ∧
      ∀ e ∈ (handle opts env answers).1, isIndexMutation e = false) := by
  refine ⟨?_, ?_, ?_⟩
  · rcases hm : (mainPhase opts env answers).2 with _ | out
    · rw [handle_main_none opts env answers hm]
      rw [postPhase_exit_iff]
      constructor
      · exact Or.inl
      · rintro (h | h)
        · exact h
        · have hq := (mainPhase_exit_iff opts env answers).mpr h
          rw [hm] at hq
          exact absurd hq (by simp)
    · rw [handle_main_some opts env answers out hm]
      constructor
      · intro ho
        subst ho
        exact Or.inr ((mainPhase_exit_iff opts env answers).mp hm)
      · rintro (h | h)
        · have := mainPhase_noaction opts env answers h
          rw [this] at hm
          exact absurd hm (by simp)
        · have hq := (mainPhase_exit_iff opts env answers).mpr h
          rw [hm] at hq
          injection hq
  · intro h
    have hm := mainPhase_noaction opts env answers h
    have hp := postPhase_noaction opts env h
    rw [handle_main_none opts env answers (by rw [hm])]
    rw [hm, hp]
    exact ⟨rfl, by simp [isIndexMutation]⟩
  · intro h
    have hm := mainPhase_query_update opts env answers h
    rw [handle_main_some opts env answers (Outcome.exited 1) (by rw [hm])]
    rw [hm]
    exact ⟨rfl, rfl, by simp [isIndexMutation]⟩

/-- Witness for C9 at a concrete input: no action flag at all. -/
theorem usage_error_exits_witness :
    noActionRequested defaultOptions ∧
    (handle defaultOptions env0 []).2 = Outcome.exited 1 ∧
    (handle defaultOptions env0 []).1 = [Effect.stderrWrite usageError] := by
  have h : noActionRequested defaultOptions := ⟨rfl, rfl, rfl, rfl, rfl⟩
  exact ⟨h, (usage_error_exits defaultOptions env0 []).1.mpr (Or.inl h),
    ((usage_error_exits defaultOptions env0 []).2.1 h).1⟩

end ClUpdateIndex
